import Mathlib

/-!
Verification of `scripts/detect_schema_changes.py`.

A shallow embedding of the schema-change detector. Python strings are
modelled as `List Char` (`Str`), Python dicts as insertion-ordered
association lists, and the file system side-file as an optional content
value. The string helpers below reproduce the semantics of the Python
`str` methods used by the script (`split`, `strip`, `lower`, `in`).
-/

namespace SchemaDetect

/-- Python strings are modelled as lists of characters. -/
abbrev Str := List Char

/-- Model of Python `str.strip()`: remove leading and trailing
whitespace. -/
def pyStrip (s : Str) : Str :=
  ((s.dropWhile Char.isWhitespace).reverse.dropWhile Char.isWhitespace).reverse

/-- Model of Python `str.lower()` (ASCII-sufficient). -/
def pyLower (s : Str) : Str :=
  s.map Char.toLower

/-- Fuelled worker for `pySplit`; the separator is `c :: cs` (non-empty).
Fuel at least the length of the input makes the `0, _ :: _` arm
unreachable, since every step consumes at least one character. -/
def splitGo (c : Char) (cs : Str) : Nat → Str → List Str
  | _, [] => [[]]
  | 0, a :: rest => [a :: rest]
  | fuel + 1, a :: rest =>
    if (c :: cs) <+: (a :: rest) then
      [] :: splitGo c cs fuel ((a :: rest).drop (cs.length + 1))
    else
      match splitGo c cs fuel rest with
      | [] => [[a]]
      | r :: rs => (a :: r) :: rs

/-- Model of Python `s.split(sep)` for a non-empty literal
separator: split at each non-overlapping leftmost occurrence of `sep`.
Python raises on an empty separator; we return `[s]` there (unused). -/
def pySplit (sep : Str) (s : Str) : List Str :=
  match sep with
  | [] => [s]
  | c :: cs => splitGo c cs s.length s

/-! ## Data model

Python dicts (insertion-ordered, unique keys) are modelled as association
lists; `dictGet?` is subscript/`.get` lookup, `dictSet` is item
assignment (update the existing entry in place, else append). -/

/-- A column record `{"type": ..., "nullable": ...}` as built by the
extractor. Python's `old_cols[c].get("nullable", False)` is field access
here, since the extractor always stores both keys. -/
structure ColumnInfo where
  type : Str
  nullable : Bool
deriving DecidableEq

/-- A table entry `{"columns": {...}}`: a dict from column name to
`ColumnInfo`. -/
structure TableSchema where
  columns : List (Str × ColumnInfo)
deriving DecidableEq

/-- A schema snapshot: dict from table name to `TableSchema`. -/
abbrev Schema := List (Str × TableSchema)

/-- Dict lookup: value of the first (only, for genuine dicts) entry with
the given key. -/
def dictGet? {α : Type} (d : List (Str × α)) (k : Str) : Option α :=
  match d with
  | [] => none
  | (k', v) :: rest => if k' = k then some v else dictGet? rest k

/-- Dict assignment `d[k] = v`: replace the value at `k` if present,
otherwise append the new entry (insertion order). -/
def dictSet {α : Type} (d : List (Str × α)) (k : Str) (v : α) : List (Str × α) :=
  match d with
  | [] => [(k, v)]
  | (k', v') :: rest => if k' = k then (k', v) :: rest else (k', v') :: dictSet rest k v

/-! ## The extractor (`extract_schema_from_notebook`) -/

/-- The `"# SCHEMA:"` marker. -/
def schemaMark : Str := "# SCHEMA:".toList

/-- The `"# COLUMNS:"` marker. -/
def columnsMark : Str := "# COLUMNS:".toList

/-- The `"nullable"` keyword. -/
def nullableWord : Str := "nullable".toList

/-- One comma-separated fragment of a `# COLUMNS:` line
(the body of the `for col_def in columns_def.split(","):` loop):
strip it; if it has both a `(` and a `)`, record the text before the
first `(` as the name, the text between the first `(` and the first
following `(`/`)` as the type, and set `nullable` iff `"nullable"`
occurs in the lowercased fragment; otherwise produce nothing. -/
def parseColDef (colDef0 : Str) : Option (Str × ColumnInfo) :=
  let colDef := pyStrip colDef0
  if '(' ∈ colDef ∧ ')' ∈ colDef then
    let colName := pyStrip ((pySplit ['('] colDef).getD 0 [])
    let colType := pyStrip ((pySplit [')'] ((pySplit ['('] colDef).getD 1 [])).getD 0 [])
    let nullable := decide (nullableWord <:+: pyLower colDef)
    some (colName, ⟨colType, nullable⟩)
  else
    none

/-- Modelled from the words of the amended claim C3 (the parenthesized
parts of a fragment, described positionally): a fragment with both a `(`
and a `)` yields the column whose name is the stripped text before the
first `(`, whose type is the stripped text after the first `(` up to but
not including the next `(` or `)`, and whose nullable flag is set iff the
substring `nullable` (case-insensitively) occurs anywhere in the whole
fragment; a fragment missing a parenthesis yields nothing. -/
def specColumnOfFragment (frag0 : Str) : Option (Str × ColumnInfo) :=
  let frag := pyStrip frag0
  if '(' ∈ frag ∧ ')' ∈ frag then
    some (pyStrip (frag.takeWhile (fun a => a != '(')),
      ⟨pyStrip (((frag.dropWhile (fun a => a != '(')).drop 1).takeWhile
          (fun a => a != '(' && a != ')')),
        decide (nullableWord <:+: pyLower frag)⟩)
  else
    none

/-- Update `schemas[t]["columns"][name] = info`. The script only reaches
this with `t` present in `schemas` (the `# SCHEMA:` branch created it);
for an absent `t` (a `KeyError` in Python) this is a no-op. -/
def setColumn (schemas : Schema) (t name : Str) (info : ColumnInfo) : Schema :=
  match dictGet? schemas t with
  | none => schemas
  | some tbl => dictSet schemas t ⟨dictSet tbl.columns name info⟩

/-- One iteration of the line loop of `extract_schema_from_notebook`:
a `# SCHEMA:` line opens (or resets) a table and makes it current; a
`# COLUMNS:` line while a (non-empty-named, Python truthiness) table is
current parses its comma-separated fragments; other lines do nothing. -/
def extractLine (schemas : Schema) (currentTable : Option Str) (line : Str) :
    Schema × Option Str :=
  if schemaMark <:+: line then
    let t := pyStrip ((pySplit schemaMark line).getD 1 [])
    (dictSet schemas t ⟨[]⟩, some t)
  else
    match currentTable with
    | none => (schemas, currentTable)
    | some t =>
      if (columnsMark <:+: line) ∧ t ≠ [] then
        let columnsDef := pyStrip ((pySplit columnsMark line).getD 1 [])
        let frags := pySplit [','] columnsDef
        (frags.foldl (fun sch frag =>
          match parseColDef frag with
          | none => sch
          | some (name, info) => setColumn sch t name info) schemas,
         currentTable)
      else
        (schemas, currentTable)

/-- Model of `extract_schema_from_notebook`: split the notebook source on newlines
and fold the line handler over it, starting from an empty snapshot and
no current table. -/
def extractSchemaFromNotebook (content : Str) : Schema :=
  ((pySplit ['\n'] content).foldl (fun st line => extractLine st.1 st.2 line)
    ([], none)).1

/-! ## The differ (`detect_changes`) -/

/-- One change record, with the literal strings the script uses. -/
structure Change where
  type : Str
  severity : Str
  table : Str
  column : Str
  message : Str
deriving DecidableEq

/-- The string `"column_removed"`. -/
def tyRemoved : Str := "column_removed".toList
/-- The string `"column_added"`. -/
def tyAdded : Str := "column_added".toList
/-- The string `"data_type_changed"`. -/
def tyTypeChanged : Str := "data_type_changed".toList
/-- The string `"column_made_nullable"`. -/
def tyMadeNullable : Str := "column_made_nullable".toList
/-- The string `"column_made_non_nullable"`. -/
def tyMadeNonNullable : Str := "column_made_non_nullable".toList
/-- The string `"BREAKING"`. -/
def sevBreaking : Str := "BREAKING".toList
/-- The string `"SAFE"`. -/
def sevSafe : Str := "SAFE".toList

/-- The apostrophe character (codepoint 39), quoting column and table
names in the message strings. -/
def apos : Char := Char.ofNat 39

/-- The `column_removed` change record. -/
def removedChange (t c : Str) : Change :=
  ⟨tyRemoved, sevBreaking, t, c,
    "Column ".toList ++ [apos] ++ c ++ [apos]
      ++ " was removed from table ".toList ++ [apos] ++ t ++ [apos]⟩

/-- The `column_added` change record. -/
def addedChange (t c : Str) : Change :=
  ⟨tyAdded, sevSafe, t, c,
    "Column ".toList ++ [apos] ++ c ++ [apos]
      ++ " was added to table ".toList ++ [apos] ++ t ++ [apos]⟩

/-- The `data_type_changed` change record. -/
def typeChange (t c oldTy newTy : Str) : Change :=
  ⟨tyTypeChanged, sevBreaking, t, c,
    "Column ".toList ++ [apos] ++ c ++ [apos] ++ " type changed from ".toList ++ oldTy
      ++ " to ".toList ++ newTy⟩

/-- The `column_made_nullable` change record. -/
def madeNullableChange (t c : Str) : Change :=
  ⟨tyMadeNullable, sevBreaking, t, c,
    "Column ".toList ++ [apos] ++ c ++ [apos]
      ++ " changed from non-nullable to nullable".toList⟩

/-- The `column_made_non_nullable` change record. -/
def madeNonNullableChange (t c : Str) : Change :=
  ⟨tyMadeNonNullable, sevSafe, t, c,
    "Column ".toList ++ [apos] ++ c ++ [apos]
      ++ " changed from nullable to non-nullable".toList⟩

/-- Model of `schema.get(t, {}).get("columns", {})`. -/
def getCols (schema : Schema) (t : Str) : List (Str × ColumnInfo) :=
  match dictGet? schema t with
  | none => []
  | some tbl => tbl.columns

/-- The table names iterated by `detect_changes`:
`set(list(old_schema.keys()) + list(new_schema.keys()))`. Python's set
iteration order is unspecified; we fix one deduplication of the
concatenated key lists (all claims proved below are order-insensitive). -/
def tableNames (oldSchema newSchema : Schema) : List Str :=
  (oldSchema.map Prod.fst ++ newSchema.map Prod.fst).dedup

/-- The changes `detect_changes` appends for one table: the removed-column
loop, then the added-column loop, then the combined type/nullability loop.
Python iterates dict keys and subscripts to read values, which is what
`map Prod.fst` plus `dictGet?` does (the inner `none` arms are the
unreachable `KeyError` cases: the key was just taken from that dict). -/
def tableChanges (t : Str) (oldCols newCols : List (Str × ColumnInfo)) : List Change :=
  ((oldCols.map Prod.fst).filterMap fun c =>
    if dictGet? newCols c = none then some (removedChange t c) else none)
  ++ ((newCols.map Prod.fst).filterMap fun c =>
    if dictGet? oldCols c = none then some (addedChange t c) else none)
  ++ ((oldCols.map Prod.fst).flatMap fun c =>
    match dictGet? newCols c, dictGet? oldCols c with
    | some newInfo, some oldInfo =>
      (if oldInfo.type ≠ newInfo.type then [typeChange t c oldInfo.type newInfo.type] else [])
      ++ (if oldInfo.nullable ≠ newInfo.nullable then
            [if newInfo.nullable ∧ ¬ oldInfo.nullable then madeNullableChange t c
             else madeNonNullableChange t c]
          else [])
    | _, _ => [])

/-- Model of `detect_changes(old_schema, new_schema)`: for each table in the union
of the key sets, append that table's changes. -/
def detectChanges (oldSchema newSchema : Schema) : List Change :=
  (tableNames oldSchema newSchema).flatMap fun t =>
    tableChanges t (getCols oldSchema t) (getCols newSchema t)

/-- The (table, column) pairs of the changes of a given kind. -/
def changePairs (ty : Str) (cs : List Change) : List (Str × Str) :=
  (cs.filter fun c => decide (c.type = ty)).map fun c => (c.table, c.column)

/-! ## The store and the driver (`load_previous_schema`,
`save_current_schema`, `run`)

The side-file `output_schema.json` is modelled as
`Option (Except String Schema)`: `none` when the file does not exist,
`some (.ok s)` when it holds the JSON serialization of snapshot `s`, and
`some (.error e)` when `json.load` on its content raises `e`. `run`
returns through `Except` so that an uncaught parse exception propagates
out of it, and also returns the file state after the run. -/

universe u v

instance {ε : Type u} {α : Type v} [DecidableEq ε] [DecidableEq α] :
    DecidableEq (Except ε α) := fun x y =>
  match x, y with
  | .error a, .error b => decidable_of_iff (a = b) (by simp)
  | .error _, .ok _ => isFalse (by simp)
  | .ok _, .error _ => isFalse (by simp)
  | .ok a, .ok b => decidable_of_iff (a = b) (by simp)

/-- The side-file contents. -/
abbrev SchemaFile := Option (Except String Schema)

/-- Model of `load_previous_schema`: an absent file yields the empty snapshot; an
existing file yields whatever `json.load` produces — a malformed file's
parse error is not caught and propagates. -/
def loadPreviousSchema (file : SchemaFile) : Except String Schema :=
  match file with
  | none => .ok []
  | some r => r

/-- Model of `save_current_schema`: overwrite the side-file with the serialized
snapshot. -/
def saveCurrentSchema (schema : Schema) : SchemaFile :=
  some (.ok schema)

/-- Model of `run`: extract the current snapshot; an empty one short-circuits to
"nothing to validate". Otherwise load the baseline (propagating a parse
error); an empty baseline means first run: save and report no changes.
Otherwise diff; no changes reports none (and does not save); otherwise
save and report `(len(breaking) > 0, changes)`. The returned triple is
`(has_breaking_changes, changes, side-file after the run)`. -/
def run (content : Str) (file : SchemaFile) :
    Except String (Bool × List Change × SchemaFile) :=
  let currentSchema := extractSchemaFromNotebook content
  if currentSchema = [] then
    .ok (false, [], file)
  else
    match loadPreviousSchema file with
    | .error e => .error e
    | .ok previousSchema =>
      if previousSchema = [] then
        .ok (false, [], saveCurrentSchema currentSchema)
      else
        let changes := detectChanges previousSchema currentSchema
        if changes = [] then
          .ok (false, [], file)
        else
          let breakingChanges := changes.filter fun c => decide (c.severity = sevBreaking)
          .ok (breakingChanges.length > 0, changes, saveCurrentSchema currentSchema)

/-! ## Dictionary lemmas -/

theorem dictGet?_nil {α : Type} (k : Str) :
    dictGet? ([] : List (Str × α)) k = none := rfl

theorem dictGet?_cons {α : Type} (k' : Str) (v : α) (rest : List (Str × α)) (k : Str) :
    dictGet? ((k', v) :: rest) k = if k' = k then some v else dictGet? rest k := rfl

theorem dictGet?_eq_none_iff {α : Type} {d : List (Str × α)} {k : Str} :
    dictGet? d k = none ↔ k ∉ d.map Prod.fst := by
  induction d with
  | nil =>
    rw [dictGet?_nil]
    exact ⟨fun _ => List.not_mem_nil k, fun _ => rfl⟩
  | cons p rest ih =>
    obtain ⟨k', v⟩ := p
    rw [dictGet?_cons, List.map_cons, List.mem_cons]
    by_cases h : k' = k
    · subst h
      rw [if_pos rfl]
      exact ⟨fun hh => Option.noConfusion hh, fun hh => absurd (Or.inl rfl) hh⟩
    · have h' : ¬ k = k' := fun hh => h hh.symm
      rw [if_neg h, ih]
      constructor
      · intro hnm hor
        rcases hor with hor | hor
        · exact h' hor
        · exact hnm hor
      · intro hh hm
        exact hh (Or.inr hm)

theorem dictGet?_isSome_of_mem {α : Type} {d : List (Str × α)} {k : Str}
    (h : k ∈ d.map Prod.fst) : ∃ v, dictGet? d k = some v := by
  rcases h' : dictGet? d k with _ | v
  · exact absurd (dictGet?_eq_none_iff.mp h') (not_not_intro h)
  · exact ⟨v, rfl⟩

/-! ## Differ lemmas -/

theorem tableChanges_self (t : Str) (c : List (Str × ColumnInfo)) :
    tableChanges t c c = [] := by
  unfold tableChanges
  rw [List.append_eq_nil, List.append_eq_nil]
  refine ⟨⟨?_, ?_⟩, ?_⟩
  · rw [List.filterMap_eq_nil_iff]
    intro k hk
    obtain ⟨v, hv⟩ := dictGet?_isSome_of_mem hk
    simp [hv]
  · rw [List.filterMap_eq_nil_iff]
    intro k hk
    obtain ⟨v, hv⟩ := dictGet?_isSome_of_mem hk
    simp [hv]
  · rw [List.flatMap_eq_nil_iff]
    intro k hk
    obtain ⟨v, hv⟩ := dictGet?_isSome_of_mem hk
    simp [hv]

/-- Claim C4 — For every snapshot `S`, `diff(S, S)` returns an empty change
list: `detect_changes` applied to two identical snapshots emits nothing. -/
theorem C4_detectChanges_self (s : Schema) : detectChanges s s = [] := by
  unfold detectChanges
  rw [List.flatMap_eq_nil_iff]
  intro t _
  exact tableChanges_self t (getCols s t)

theorem mem_tableChanges_classify {t : Str} {oldCols newCols : List (Str × ColumnInfo)}
    {c : Change} (h : c ∈ tableChanges t oldCols newCols) :
    (c.type = tyRemoved ∧ c.severity = sevBreaking) ∨
    (c.type = tyAdded ∧ c.severity = sevSafe) ∨
    (c.type = tyTypeChanged ∧ c.severity = sevBreaking) ∨
    (c.type = tyMadeNullable ∧ c.severity = sevBreaking) ∨
    (c.type = tyMadeNonNullable ∧ c.severity = sevSafe) := by
  unfold tableChanges at h
  rw [List.mem_append, List.mem_append] at h
  rcases h with (h | h) | h
  · rw [List.mem_filterMap] at h
    obtain ⟨k, -, hk⟩ := h
    by_cases hc : dictGet? newCols k = none
    · rw [if_pos hc, Option.some_inj] at hk
      subst hk
      exact Or.inl ⟨rfl, rfl⟩
    · rw [if_neg hc] at hk
      cases hk
  · rw [List.mem_filterMap] at h
    obtain ⟨k, -, hk⟩ := h
    by_cases hc : dictGet? oldCols k = none
    · rw [if_pos hc, Option.some_inj] at hk
      subst hk
      exact Or.inr (Or.inl ⟨rfl, rfl⟩)
    · rw [if_neg hc] at hk
      cases hk
  · rw [List.mem_flatMap] at h
    obtain ⟨k, -, hk⟩ := h
    rcases hn : dictGet? newCols k with _ | newInfo
    · simp [hn] at hk
    · rcases ho : dictGet? oldCols k with _ | oldInfo
      · simp [hn, ho] at hk
      · simp only [hn, ho] at hk
        rw [List.mem_append] at hk
        rcases hk with hk | hk
        · by_cases hty : oldInfo.type ≠ newInfo.type
          · rw [if_pos hty, List.mem_singleton] at hk
            subst hk
            exact Or.inr (Or.inr (Or.inl ⟨rfl, rfl⟩))
          · rw [if_neg hty] at hk
            cases hk
        · by_cases hnul : oldInfo.nullable ≠ newInfo.nullable
          · rw [if_pos hnul, List.mem_singleton] at hk
            by_cases hmn : newInfo.nullable ∧ ¬ oldInfo.nullable
            · rw [if_pos hmn] at hk
              subst hk
              exact Or.inr (Or.inr (Or.inr (Or.inl ⟨rfl, rfl⟩)))
            · rw [if_neg hmn] at hk
              subst hk
              exact Or.inr (Or.inr (Or.inr (Or.inr ⟨rfl, rfl⟩)))
          · rw [if_neg hnul] at hk
            cases hk

/-- Claim C1 — Every change emitted by `detect_changes` is one of the five
kinds with its fixed severity: `column_removed`, `data_type_changed`
and `column_made_nullable` are `BREAKING`; `column_added` and
`column_made_non_nullable` are `SAFE`; no other kind is emitted. -/
theorem C1_change_classification (oldSchema newSchema : Schema) (c : Change)
    (h : c ∈ detectChanges oldSchema newSchema) :
    (c.type = tyRemoved ∧ c.severity = sevBreaking) ∨
    (c.type = tyAdded ∧ c.severity = sevSafe) ∨
    (c.type = tyTypeChanged ∧ c.severity = sevBreaking) ∨
    (c.type = tyMadeNullable ∧ c.severity = sevBreaking) ∨
    (c.type = tyMadeNonNullable ∧ c.severity = sevSafe) := by
  unfold detectChanges at h
  rw [List.mem_flatMap] at h
  obtain ⟨t, -, ht⟩ := h
  exact mem_tableChanges_classify ht

/-- Witness for C1: a concrete diff containing a removed column, with the
classification read off by the theorem. -/
theorem C1_change_classification_witness :
    removedChange "t".toList "a".toList ∈
      detectChanges [("t".toList, ⟨[("a".toList, ⟨"int".toList, false⟩)]⟩)] [] ∧
    (((removedChange "t".toList "a".toList).type = tyRemoved ∧
      (removedChange "t".toList "a".toList).severity = sevBreaking) ∨
    ((removedChange "t".toList "a".toList).type = tyAdded ∧
      (removedChange "t".toList "a".toList).severity = sevSafe) ∨
    ((removedChange "t".toList "a".toList).type = tyTypeChanged ∧
      (removedChange "t".toList "a".toList).severity = sevBreaking) ∨
    ((removedChange "t".toList "a".toList).type = tyMadeNullable ∧
      (removedChange "t".toList "a".toList).severity = sevBreaking) ∨
    ((removedChange "t".toList "a".toList).type = tyMadeNonNullable ∧
      (removedChange "t".toList "a".toList).severity = sevSafe)) := by
  have h : removedChange "t".toList "a".toList ∈
      detectChanges [("t".toList, ⟨[("a".toList, ⟨"int".toList, false⟩)]⟩)] [] := by decide
  exact ⟨h, C1_change_classification _ _ _ h⟩

/-! ## Characterizing removed/added changes (for the add/remove symmetry) -/

theorem mem_changePairs {ty : Str} {cs : List Change} {t k : Str} :
    (t, k) ∈ changePairs ty cs ↔
      ∃ c ∈ cs, c.type = ty ∧ c.table = t ∧ c.column = k := by
  unfold changePairs
  rw [List.mem_map]
  constructor
  · rintro ⟨c, hc, hp⟩
    rw [List.mem_filter, decide_eq_true_iff] at hc
    obtain ⟨h1, h2⟩ := Prod.mk.injEq .. ▸ hp
    exact ⟨c, hc.1, hc.2, h1, h2⟩
  · rintro ⟨c, hc, hty, h1, h2⟩
    exact ⟨c, List.mem_filter.mpr ⟨hc, decide_eq_true hty⟩, by rw [h1, h2]⟩

theorem removed_mem_tableChanges_iff {t' : Str} {oc nc : List (Str × ColumnInfo)}
    {t k : Str} :
    (∃ c ∈ tableChanges t' oc nc, c.type = tyRemoved ∧ c.table = t ∧ c.column = k) ↔
      (t = t' ∧ k ∈ oc.map Prod.fst ∧ dictGet? nc k = none) := by
  constructor
  · rintro ⟨c, hc, hty, ht, hk⟩
    unfold tableChanges at hc
    rw [List.mem_append, List.mem_append] at hc
    rcases hc with (hc | hc) | hc
    · rw [List.mem_filterMap] at hc
      obtain ⟨k0, hk0, hit⟩ := hc
      by_cases hn : dictGet? nc k0 = none
      · rw [if_pos hn, Option.some_inj] at hit
        subst hit
        cases ht
        cases hk
        exact ⟨rfl, hk0, hn⟩
      · rw [if_neg hn] at hit
        cases hit
    · rw [List.mem_filterMap] at hc
      obtain ⟨k0, hk0, hit⟩ := hc
      by_cases hn : dictGet? oc k0 = none
      · rw [if_pos hn, Option.some_inj] at hit
        subst hit
        exact absurd (show tyAdded = tyRemoved from hty) (by decide)
      · rw [if_neg hn] at hit
        cases hit
    · rw [List.mem_flatMap] at hc
      obtain ⟨k0, hk0, hit⟩ := hc
      rcases hn : dictGet? nc k0 with _ | newInfo
      · simp [hn] at hit
      · rcases ho : dictGet? oc k0 with _ | oldInfo
        · simp [hn, ho] at hit
        · simp only [hn, ho] at hit
          rw [List.mem_append] at hit
          rcases hit with hit | hit
          · by_cases hty' : oldInfo.type ≠ newInfo.type
            · rw [if_pos hty', List.mem_singleton] at hit
              subst hit
              exact absurd (show tyTypeChanged = tyRemoved from hty) (by decide)
            · rw [if_neg hty'] at hit
              cases hit
          · by_cases hnul : oldInfo.nullable ≠ newInfo.nullable
            · rw [if_pos hnul, List.mem_singleton] at hit
              by_cases hmn : newInfo.nullable ∧ ¬ oldInfo.nullable
              · rw [if_pos hmn] at hit
                subst hit
                exact absurd (show tyMadeNullable = tyRemoved from hty) (by decide)
              · rw [if_neg hmn] at hit
                subst hit
                exact absurd (show tyMadeNonNullable = tyRemoved from hty) (by decide)
            · rw [if_neg hnul] at hit
              cases hit
  · rintro ⟨rfl, hk, hn⟩
    refine ⟨removedChange t k, ?_, rfl, rfl, rfl⟩
    unfold tableChanges
    rw [List.mem_append, List.mem_append]
    exact Or.inl (Or.inl (List.mem_filterMap.mpr ⟨k, hk, by rw [if_pos hn]⟩))

theorem added_mem_tableChanges_iff {t' : Str} {oc nc : List (Str × ColumnInfo)}
    {t k : Str} :
    (∃ c ∈ tableChanges t' oc nc, c.type = tyAdded ∧ c.table = t ∧ c.column = k) ↔
      (t = t' ∧ k ∈ nc.map Prod.fst ∧ dictGet? oc k = none) := by
  constructor
  · rintro ⟨c, hc, hty, ht, hk⟩
    unfold tableChanges at hc
    rw [List.mem_append, List.mem_append] at hc
    rcases hc with (hc | hc) | hc
    · rw [List.mem_filterMap] at hc
      obtain ⟨k0, hk0, hit⟩ := hc
      by_cases hn : dictGet? nc k0 = none
      · rw [if_pos hn, Option.some_inj] at hit
        subst hit
        exact absurd (show tyRemoved = tyAdded from hty) (by decide)
      · rw [if_neg hn] at hit
        cases hit
    · rw [List.mem_filterMap] at hc
      obtain ⟨k0, hk0, hit⟩ := hc
      by_cases hn : dictGet? oc k0 = none
      · rw [if_pos hn, Option.some_inj] at hit
        subst hit
        cases ht
        cases hk
        exact ⟨rfl, hk0, hn⟩
      · rw [if_neg hn] at hit
        cases hit
    · rw [List.mem_flatMap] at hc
      obtain ⟨k0, hk0, hit⟩ := hc
      rcases hn : dictGet? nc k0 with _ | newInfo
      · simp [hn] at hit
      · rcases ho : dictGet? oc k0 with _ | oldInfo
        · simp [hn, ho] at hit
        · simp only [hn, ho] at hit
          rw [List.mem_append] at hit
          rcases hit with hit | hit
          · by_cases hty' : oldInfo.type ≠ newInfo.type
            · rw [if_pos hty', List.mem_singleton] at hit
              subst hit
              exact absurd (show tyTypeChanged = tyAdded from hty) (by decide)
            · rw [if_neg hty'] at hit
              cases hit
          · by_cases hnul : oldInfo.nullable ≠ newInfo.nullable
            · rw [if_pos hnul, List.mem_singleton] at hit
              by_cases hmn : newInfo.nullable ∧ ¬ oldInfo.nullable
              · rw [if_pos hmn] at hit
                subst hit
                exact absurd (show tyMadeNullable = tyAdded from hty) (by decide)
              · rw [if_neg hmn] at hit
                subst hit
                exact absurd (show tyMadeNonNullable = tyAdded from hty) (by decide)
            · rw [if_neg hnul] at hit
              cases hit
  · rintro ⟨rfl, hk, hn⟩
    refine ⟨addedChange t k, ?_, rfl, rfl, rfl⟩
    unfold tableChanges
    rw [List.mem_append, List.mem_append]
    exact Or.inl (Or.inr (List.mem_filterMap.mpr ⟨k, hk, by rw [if_pos hn]⟩))

theorem removed_mem_detect_iff {A B : Schema} {t k : Str} :
    (∃ c ∈ detectChanges A B, c.type = tyRemoved ∧ c.table = t ∧ c.column = k) ↔
      (t ∈ tableNames A B ∧ k ∈ (getCols A t).map Prod.fst ∧
        dictGet? (getCols B t) k = none) := by
  unfold detectChanges
  constructor
  · rintro ⟨c, hc, hprops⟩
    rw [List.mem_flatMap] at hc
    obtain ⟨t', ht', hmem⟩ := hc
    obtain ⟨rfl, h2, h3⟩ := removed_mem_tableChanges_iff.mp ⟨c, hmem, hprops⟩
    exact ⟨ht', h2, h3⟩
  · rintro ⟨ht, hk, hn⟩
    obtain ⟨c, hmem, hprops⟩ := removed_mem_tableChanges_iff.mpr ⟨rfl, hk, hn⟩
    exact ⟨c, List.mem_flatMap.mpr ⟨t, ht, hmem⟩, hprops⟩

theorem added_mem_detect_iff {A B : Schema} {t k : Str} :
    (∃ c ∈ detectChanges A B, c.type = tyAdded ∧ c.table = t ∧ c.column = k) ↔
      (t ∈ tableNames A B ∧ k ∈ (getCols B t).map Prod.fst ∧
        dictGet? (getCols A t) k = none) := by
  unfold detectChanges
  constructor
  · rintro ⟨c, hc, hprops⟩
    rw [List.mem_flatMap] at hc
    obtain ⟨t', ht', hmem⟩ := hc
    obtain ⟨rfl, h2, h3⟩ := added_mem_tableChanges_iff.mp ⟨c, hmem, hprops⟩
    exact ⟨ht', h2, h3⟩
  · rintro ⟨ht, hk, hn⟩
    obtain ⟨c, hmem, hprops⟩ := added_mem_tableChanges_iff.mpr ⟨rfl, hk, hn⟩
    exact ⟨c, List.mem_flatMap.mpr ⟨t, ht, hmem⟩, hprops⟩

theorem mem_tableNames_comm {A B : Schema} {t : Str} :
    t ∈ tableNames A B ↔ t ∈ tableNames B A := by
  unfold tableNames
  rw [List.mem_dedup, List.mem_dedup, List.mem_append, List.mem_append, or_comm]

/-- Claim C5 — For any snapshots `A`, `B`: the set of (table, column) pairs
reported `column_removed` by `diff(A, B)` equals the set reported
`column_added` by `diff(B, A)`, and symmetrically the `column_added`
pairs of `diff(A, B)` equal the `column_removed` pairs of `diff(B, A)`. -/
theorem C5_add_remove_symmetry (A B : Schema) (t k : Str) :
    ((t, k) ∈ changePairs tyRemoved (detectChanges A B) ↔
      (t, k) ∈ changePairs tyAdded (detectChanges B A)) ∧
    ((t, k) ∈ changePairs tyAdded (detectChanges A B) ↔
      (t, k) ∈ changePairs tyRemoved (detectChanges B A)) := by
  constructor
  · rw [mem_changePairs, mem_changePairs, removed_mem_detect_iff, added_mem_detect_iff,
      mem_tableNames_comm]
  · rw [mem_changePairs, mem_changePairs, removed_mem_detect_iff, added_mem_detect_iff,
      mem_tableNames_comm]

/-! ## Splitting lemmas -/

theorem splitGo_nil (c : Char) (cs : Str) (fuel : Nat) :
    splitGo c cs fuel [] = [[]] := by
  cases fuel <;> rfl

theorem splitGo_succ_cons (c : Char) (cs : Str) (fuel : Nat) (a : Char) (rest : Str) :
    splitGo c cs (fuel + 1) (a :: rest) =
      if (c :: cs) <+: (a :: rest) then
        [] :: splitGo c cs fuel ((a :: rest).drop (cs.length + 1))
      else
        match splitGo c cs fuel rest with
        | [] => [[a]]
        | r :: rs => (a :: r) :: rs := rfl

theorem splitGo_ne_nil (c : Char) (cs : Str) :
    ∀ (fuel : Nat) (s : Str), splitGo c cs fuel s ≠ [] := by
  intro fuel
  induction fuel with
  | zero =>
    intro s
    cases s <;> exact fun h => List.noConfusion h
  | succ fuel ih =>
    intro s
    cases s with
    | nil => exact fun h => List.noConfusion h
    | cons a rest =>
      rw [splitGo_succ_cons]
      by_cases hp : (c :: cs) <+: (a :: rest)
      · rw [if_pos hp]
        exact fun h => List.noConfusion h
      · rw [if_neg hp]
        rcases hres : splitGo c cs fuel rest with _ | ⟨r, rs⟩
        · exact fun h => List.noConfusion h
        · exact fun h => List.noConfusion h

/-- Every piece produced by `splitGo` is an infix of the input, and the
first piece is a prefix of the input. -/
theorem splitGo_piece_bounds (c : Char) (cs : Str) :
    ∀ (fuel : Nat) (s : Str),
      (∀ l ∈ splitGo c cs fuel s, l <:+: s) ∧
      (∀ r rs, splitGo c cs fuel s = r :: rs → r <+: s) := by
  intro fuel
  induction fuel with
  | zero =>
    intro s
    cases s with
    | nil =>
      rw [splitGo_nil]
      exact ⟨fun l hl => (List.mem_singleton.mp hl) ▸ List.infix_refl [],
        fun r rs h => by
          cases h
          exact List.prefix_refl []⟩
    | cons a rest =>
      exact ⟨fun l hl => (List.mem_singleton.mp hl) ▸ List.infix_refl _,
        fun r rs h => by
          cases h
          exact List.prefix_refl _⟩
  | succ fuel ih =>
    intro s
    cases s with
    | nil =>
      rw [splitGo_nil]
      exact ⟨fun l hl => (List.mem_singleton.mp hl) ▸ List.infix_refl [],
        fun r rs h => by
          cases h
          exact List.prefix_refl []⟩
    | cons a rest =>
      rw [splitGo_succ_cons]
      by_cases hp : (c :: cs) <+: (a :: rest)
      · rw [if_pos hp]
        constructor
        · intro l hl
          rcases List.mem_cons.mp hl with rfl | hl
          · exact ⟨[], a :: rest, rfl⟩
          · exact ((ih _).1 l hl).trans
              ((List.drop_suffix (cs.length + 1) (a :: rest)).isInfix)
        · intro r rs h
          cases h
          exact List.nil_prefix
      · rw [if_neg hp]
        rcases hres : splitGo c cs fuel rest with _ | ⟨r0, rs0⟩
        · exact absurd hres (splitGo_ne_nil c cs fuel rest)
        · have hr0 : r0 <+: rest := (ih rest).2 r0 rs0 hres
          constructor
          · intro l hl
            rcases List.mem_cons.mp hl with rfl | hl
            · exact (List.cons_prefix_cons.mpr ⟨rfl, hr0⟩).isInfix
            · have : l ∈ splitGo c cs fuel rest := by
                rw [hres]
                exact List.mem_cons_of_mem r0 hl
              exact List.infix_cons ((ih rest).1 l this)
          · intro r rs h
            cases h
            exact List.cons_prefix_cons.mpr ⟨rfl, hr0⟩

/-- Every piece of `pySplit sep s` is an infix of `s`. -/
theorem infix_of_mem_pySplit {sep s l : Str} (h : l ∈ pySplit sep s) : l <:+: s := by
  unfold pySplit at h
  match sep with
  | [] => rw [List.mem_singleton.mp h]
  | c :: cs => exact (splitGo_piece_bounds c cs s.length s).1 l h

/-! ## Extraction lemmas -/

theorem extractLine_id_of_no_marker {sch : Schema} {line : Str}
    (h : ¬ schemaMark <:+: line) :
    extractLine sch none line = (sch, none) := by
  unfold extractLine
  rw [if_neg h]

theorem foldl_extractLine_no_marker {lines : List Str}
    (h : ∀ l ∈ lines, ¬ schemaMark <:+: l) (sch : Schema) :
    lines.foldl (fun st line => extractLine st.1 st.2 line) (sch, none) = (sch, none) := by
  induction lines generalizing sch with
  | nil => rfl
  | cons l ls ih =>
    rw [List.foldl_cons]
    show List.foldl _ (extractLine sch none l) ls = (sch, none)
    rw [extractLine_id_of_no_marker (h l (List.mem_cons_self l ls))]
    exact ih (fun x hx => h x (List.mem_cons_of_mem l hx)) sch

theorem extract_eq_nil_of_no_marker {content : Str}
    (h : ¬ schemaMark <:+: content) :
    extractSchemaFromNotebook content = [] := by
  unfold extractSchemaFromNotebook
  rw [foldl_extractLine_no_marker
    (fun l hl hinf => h (hinf.trans (infix_of_mem_pySplit hl))) []]

/-- Claim C8 — A notebook text with no `# SCHEMA:` marker extracts to the
empty snapshot, and a run on it reports `(False, [])` with the side-file
untouched — whatever the side-file holds, even unreadable JSON, since the
comparison path is never reached. Not an error. -/
theorem C8_no_schema_marker (content : Str) (h : ¬ schemaMark <:+: content) :
    extractSchemaFromNotebook content = [] ∧
    ∀ file : SchemaFile, run content file = .ok (false, [], file) := by
  have hex := extract_eq_nil_of_no_marker h
  refine ⟨hex, fun file => ?_⟩
  simp only [run, hex, if_pos]

/-- Witness for C8 at the concrete notebook text `print(1)` and a
malformed side-file. -/
theorem C8_no_schema_marker_witness :
    ¬ schemaMark <:+: "print(1)".toList ∧
    extractSchemaFromNotebook "print(1)".toList = [] ∧
    run "print(1)".toList (some (.error "bad json")) =
      .ok (false, [], some (.error "bad json")) := by
  have h : ¬ schemaMark <:+: "print(1)".toList := by decide
  obtain ⟨h1, h2⟩ := C8_no_schema_marker "print(1)".toList h
  exact ⟨h, h1, h2 (some (.error "bad json"))⟩

/-! ## Store and driver claims -/

/-- Claim C7 — `load_previous_schema` returns the empty mapping when the
side-file is absent, and when the file exists but holds malformed JSON
the parse error propagates uncaught — no partial result. -/
theorem C7_load_absent_or_malformed :
    loadPreviousSchema none = .ok ([] : Schema) ∧
    ∀ e : String, loadPreviousSchema (some (.error e)) = .error e :=
  ⟨rfl, fun _ => rfl⟩

/-- Claim C6 — With no baseline side-file and a non-empty extracted snapshot,
`run` reports `(False, [])` and writes the extracted snapshot as the new
baseline. -/
theorem C6_first_run_seeds_baseline (content : Str)
    (h : extractSchemaFromNotebook content ≠ []) :
    run content none =
      .ok (false, [], some (.ok (extractSchemaFromNotebook content))) := by
  simp [run, loadPreviousSchema, saveCurrentSchema, h]

/-- Witness for C6 at a concrete notebook text. -/
theorem C6_first_run_seeds_baseline_witness :
    extractSchemaFromNotebook "# SCHEMA: t\n# COLUMNS: a (string)".toList ≠ [] ∧
    run "# SCHEMA: t\n# COLUMNS: a (string)".toList none =
      .ok (false, [],
        some (.ok (extractSchemaFromNotebook "# SCHEMA: t\n# COLUMNS: a (string)".toList))) := by
  have h : extractSchemaFromNotebook "# SCHEMA: t\n# COLUMNS: a (string)".toList ≠ [] := by
    decide
  exact ⟨h, C6_first_run_seeds_baseline _ h⟩

/-- Claim C9 — When extraction is non-empty, a non-empty baseline loads, and
the diff is empty, `run` returns `(False, [])` and the side-file is left
exactly as it was (the no-changes path does not save). -/
theorem C9_no_changes_leaves_baseline (content : Str) (prev : Schema)
    (h1 : extractSchemaFromNotebook content ≠ [])
    (h2 : prev ≠ [])
    (h3 : detectChanges prev (extractSchemaFromNotebook content) = []) :
    run content (some (.ok prev)) = .ok (false, [], some (.ok prev)) := by
  simp [run, loadPreviousSchema, h1, h2, h3]

/-- Witness for C9: a notebook identical to its stored baseline. -/
theorem C9_no_changes_leaves_baseline_witness :
    extractSchemaFromNotebook "# SCHEMA: t\n# COLUMNS: a (string)".toList ≠ [] ∧
    ([("t".toList, TableSchema.mk [("a".toList, ⟨"string".toList, false⟩)])] : Schema) ≠ [] ∧
    detectChanges [("t".toList, ⟨[("a".toList, ⟨"string".toList, false⟩)]⟩)]
      (extractSchemaFromNotebook "# SCHEMA: t\n# COLUMNS: a (string)".toList) = [] ∧
    run "# SCHEMA: t\n# COLUMNS: a (string)".toList
        (some (.ok [("t".toList, ⟨[("a".toList, ⟨"string".toList, false⟩)]⟩)])) =
      .ok (false, [], some (.ok [("t".toList, ⟨[("a".toList, ⟨"string".toList, false⟩)]⟩)])) := by
  refine ⟨by decide, by decide, by decide, ?_⟩
  exact C9_no_changes_leaves_baseline _ _ (by decide) (by decide) (by decide)

/-- Claim C10 — A side-file that exists but deserializes to the empty mapping
sends `run` down the first-run seeding path exactly as if the file were
absent: the file is overwritten with the current snapshot and the result
is `(False, [])`. -/
theorem C10_empty_baseline_acts_as_first_run (content : Str)
    (h : extractSchemaFromNotebook content ≠ []) :
    run content (some (.ok [])) =
      .ok (false, [], some (.ok (extractSchemaFromNotebook content))) ∧
    run content (some (.ok [])) = run content none := by
  constructor <;> simp [run, loadPreviousSchema, saveCurrentSchema, h]

/-- Witness for C10 at a concrete notebook text. -/
theorem C10_empty_baseline_acts_as_first_run_witness :
    extractSchemaFromNotebook "# SCHEMA: t\n# COLUMNS: a (string)".toList ≠ [] ∧
    run "# SCHEMA: t\n# COLUMNS: a (string)".toList (some (.ok [])) =
      .ok (false, [],
        some (.ok (extractSchemaFromNotebook "# SCHEMA: t\n# COLUMNS: a (string)".toList))) ∧
    run "# SCHEMA: t\n# COLUMNS: a (string)".toList (some (.ok [])) =
      run "# SCHEMA: t\n# COLUMNS: a (string)".toList none := by
  have h : extractSchemaFromNotebook "# SCHEMA: t\n# COLUMNS: a (string)".toList ≠ [] := by
    decide
  obtain ⟨h1, h2⟩ := C10_empty_baseline_acts_as_first_run _ h
  exact ⟨h, h1, h2⟩

set_option synthInstance.maxSize 2000 in
/-- Claim C2 — The spec's end-to-end scenario 2: baseline has
`amount (double, non-nullable)` for table `sales`; the notebook declares
`# COLUMNS: amount (double, nullable)`. The spec expects one
`column_made_nullable` (Breaking) change. The code instead splits the
`# COLUMNS:` remainder on commas before matching parentheses, so the
declaration decomposes into the fragments `amount (double` and
`nullable)`, neither of which has both parentheses; the column is
silently dropped, the extracted table is empty, and the run reports one
`column_removed` (Breaking) change. `has_breaking_changes` is `True`,
but the single change has the wrong kind. -/
theorem C2_nullable_declaration_is_dropped :
    extractSchemaFromNotebook
        "# SCHEMA: sales\n# COLUMNS: amount (double, nullable)".toList
      = [("sales".toList, ⟨[]⟩)] ∧
    run "# SCHEMA: sales\n# COLUMNS: amount (double, nullable)".toList
        (some (.ok [("sales".toList, ⟨[("amount".toList, ⟨"double".toList, false⟩)]⟩)]))
      = .ok (true, [removedChange "sales".toList "amount".toList],
             some (.ok [("sales".toList, ⟨[]⟩)])) ∧
    (removedChange "sales".toList "amount".toList).type ≠ tyMadeNullable := by
  exact ⟨by decide, by decide, by decide⟩

/-! ## Fragment parsing (claim C3) -/

theorem takeWhile_takeWhile_and (p q : Char → Bool) (l : Str) :
    (l.takeWhile q).takeWhile p = l.takeWhile (fun a => q a && p a) := by
  induction l with
  | nil => rfl
  | cons a l ih =>
    rw [List.takeWhile_cons, List.takeWhile_cons]
    by_cases hq : q a = true
    · rw [if_pos hq, List.takeWhile_cons]
      by_cases hp : p a = true
      · rw [if_pos hp, if_pos (by simp [hq, hp])]
        exact congrArg (a :: ·) ih
      · rw [if_neg hp, if_neg (by rw [hq]; exact hp)]
    · rw [if_neg hq, if_neg (by rw [Bool.not_eq_true] at hq; rw [hq]; exact Bool.false_ne_true)]
      rfl

theorem singleton_prefix_cons {c a : Char} {rest : Str} :
    [c] <+: (a :: rest) ↔ c = a := by
  rw [List.cons_prefix_cons]
  exact ⟨fun h => h.1, fun h => ⟨h, List.nil_prefix⟩⟩

theorem splitGo_single_head (c : Char) :
    ∀ (fuel : Nat) (s : Str), s.length ≤ fuel →
      (splitGo c [] fuel s).getD 0 [] = s.takeWhile (fun a => a != c) := by
  intro fuel
  induction fuel with
  | zero =>
    intro s hs
    rw [List.length_eq_zero.mp (Nat.le_zero.mp hs)]
    rfl
  | succ fuel ih =>
    intro s hs
    cases s with
    | nil => rfl
    | cons a rest =>
      rw [splitGo_succ_cons]
      by_cases hp : (c :: []) <+: (a :: rest)
      · obtain rfl := singleton_prefix_cons.mp hp
        rw [if_pos hp, List.takeWhile_cons]
        rw [show (c != c) = false by simp]
        rw [if_neg Bool.false_ne_true]
        rfl
      · have hca : ¬ c = a := fun h => hp (singleton_prefix_cons.mpr h)
        rw [if_neg hp]
        rcases hres : splitGo c [] fuel rest with _ | ⟨r, rs⟩
        · exact absurd hres (splitGo_ne_nil c [] fuel rest)
        · have hr : r = rest.takeWhile (fun a => a != c) := by
            have h0 := ih rest (Nat.le_of_succ_le_succ hs)
            rw [hres] at h0
            exact h0
          rw [List.takeWhile_cons]
          rw [show (a != c) = true by
            rw [bne_iff_ne]
            exact fun h => hca h.symm]
          rw [if_pos rfl, ← hr]
          rfl

theorem splitGo_single_second (c : Char) :
    ∀ (fuel : Nat) (s : Str), s.length ≤ fuel →
      (splitGo c [] fuel s).getD 1 [] =
        if c ∈ s then
          ((s.dropWhile (fun a => a != c)).drop 1).takeWhile (fun a => a != c)
        else [] := by
  intro fuel
  induction fuel with
  | zero =>
    intro s hs
    rw [List.length_eq_zero.mp (Nat.le_zero.mp hs)]
    rfl
  | succ fuel ih =>
    intro s hs
    cases s with
    | nil => rfl
    | cons a rest =>
      have hrest : rest.length ≤ fuel := Nat.le_of_succ_le_succ hs
      rw [splitGo_succ_cons]
      by_cases hp : (c :: []) <+: (a :: rest)
      · obtain rfl := singleton_prefix_cons.mp hp
        rw [if_pos hp]
        have hL : ([] :: splitGo c [] fuel ((c :: rest).drop (List.length ([] : Str) + 1))).getD
              1 ([] : Str) = (splitGo c [] fuel rest).getD 0 [] := rfl
        rw [hL, splitGo_single_head c fuel rest hrest]
        rw [if_pos (List.mem_cons_self c rest)]
        rw [List.dropWhile_cons]
        rw [show (c != c) = false by simp]
        rw [if_neg Bool.false_ne_true]
        rfl
      · have hca : ¬ c = a := fun h => hp (singleton_prefix_cons.mpr h)
        rw [if_neg hp]
        rcases hres : splitGo c [] fuel rest with _ | ⟨r, rs⟩
        · exact absurd hres (splitGo_ne_nil c [] fuel rest)
        · have h0 := ih rest hrest
          rw [hres] at h0
          have hL : ((a :: r) :: rs).getD 1 ([] : Str) = (r :: rs).getD 1 [] := rfl
          rw [hL, h0]
          by_cases hc : c ∈ rest
          · rw [if_pos hc, if_pos (List.mem_cons_of_mem a hc)]
            rw [List.dropWhile_cons]
            rw [show (a != c) = true by
              rw [bne_iff_ne]
              exact fun h => hca h.symm]
            rw [if_pos rfl]
          · have hnotmem : ¬ c ∈ a :: rest := by
              rw [List.mem_cons]
              rintro (h | h)
              · exact hca h
              · exact hc h
            rw [if_neg hc, if_neg hnotmem]

theorem pySplit_single_getD_zero (c : Char) (s : Str) :
    (pySplit [c] s).getD 0 [] = s.takeWhile (fun a => a != c) :=
  splitGo_single_head c s.length s (Nat.le_refl _)

theorem pySplit_single_getD_one (c : Char) (s : Str) :
    (pySplit [c] s).getD 1 [] =
      if c ∈ s then
        ((s.dropWhile (fun a => a != c)).drop 1).takeWhile (fun a => a != c)
      else [] :=
  splitGo_single_second c s.length s (Nat.le_refl _)

/-- Claim C3 (counterexample) — The claim as stated fails: for the fragment
`nullable_id (string)` the recorded nullable flag is `true`, although the
substring `nullable` does not occur inside the parenthesized part
(`string`); and for `price (double nullable)` the recorded type is the
raw text `double nullable`, not the text before the `nullable` keyword. -/
theorem C3_counterexample :
    parseColDef "nullable_id (string)".toList
      = some ("nullable_id".toList, ⟨"string".toList, true⟩) ∧
    ¬ nullableWord <:+: pyLower "string".toList ∧
    parseColDef "price (double nullable)".toList
      = some ("price".toList, ⟨"double nullable".toList, true⟩) := by
  exact ⟨by decide, by decide, by decide⟩

/-- Claim C3 (amended) — For every comma-separated fragment of a
`# COLUMNS:` line processed while a table is open, the extractor records
a column whose name is the stripped text before the first `(`, whose type
is the stripped text after the first `(` up to the next `(` or `)`, and
whose nullable flag is true iff the substring `nullable`
(case-insensitive) appears anywhere in the fragment — not only inside the
parentheses; fragments without both parentheses produce no column and no
error. (`parseColDef` is the loop body folded by `extractLine` over the
fragments of the line.) -/
theorem C3_fragment_parsing (frag : Str) :
    parseColDef frag = specColumnOfFragment frag := by
  simp only [parseColDef, specColumnOfFragment]
  by_cases h : '(' ∈ pyStrip frag ∧ ')' ∈ pyStrip frag
  · rw [if_pos h, if_pos h, pySplit_single_getD_zero, pySplit_single_getD_one,
      if_pos h.1, pySplit_single_getD_zero, takeWhile_takeWhile_and]
  · rw [if_neg h, if_neg h]

end SchemaDetect
